import Mathlib

/-!
Verification of the backslash-escape transform engine: a shallow embedding of `src/index.ts` from `devtools-at/backslash-escape`.

JavaScript strings are sequences of UTF-16 code units; `str[i]` yields the
`i`-th code unit and `charCodeAt(0)` its numeric value (always `< 0x10000`
on a real JS string).  We therefore model a string as a `List Nat` of code
unit values.  Characters are written by their code-unit value, e.g. `92`
for the backslash, `110` for `n`, `117` for `u`, `85` for `U`, `120` for
`x`, `39` for the single quote, `34` for the double quote.

`String.fromCodePoint` throws a `RangeError` when its argument exceeds
`0x10FFFF`; we model that, and hence `unescapeString`, with `Option`
(`none` = the JS function throws).  All other functions are total, as in
the source.
-/

/-- The `EscapeStyle` union type: `"json" | "javascript" | "python" | "c"`. -/
inductive EscapeStyle where
  | json
  | javascript
  | python
  | c
deriving DecidableEq

/-- The code-unit value of `Nat.toString`-style hex digit `d` (`0`–`9` then
lowercase `a`–`f`), as produced by JavaScript `Number.prototype.toString(16)`. -/
def hexDigitChar (d : Nat) : Nat :=
  if d < 10 then 48 + d else 87 + d

/-- Fuel-driven core of `Number.prototype.toString(16)`: most significant
digit first, empty for `0`.  The fuel only serves termination; `toHexRaw`
always supplies enough. -/
def toHexCore : Nat → Nat → List Nat
  | 0, _ => []
  | fuel + 1, n =>
      if n = 0 then [] else toHexCore fuel (n / 16) ++ [hexDigitChar (n % 16)]

/-- JavaScript `n.toString(16)`: minimal lowercase hex digits, `"0"` for zero. -/
def toHexRaw (n : Nat) : List Nat :=
  if n = 0 then [48] else toHexCore (n + 1) n

/-- JavaScript `String.prototype.padStart(w, pad)` for one-character pads:
prepend copies of `pad` until the length is at least `w`. -/
def padStart (w pad : Nat) (l : List Nat) : List Nat :=
  List.replicate (w - l.length) pad ++ l

/-- The character class of the regular expressions `[0-9a-fA-F]` used by
`unescapeString` to validate hex escapes. -/
def isHexDigit (c : Nat) : Bool :=
  (48 ≤ c && c ≤ 57) || (97 ≤ c && c ≤ 102) || (65 ≤ c && c ≤ 70)

/-- Lowercase hex digits `0`–`9`, `a`–`f` (what `toString(16)` emits). -/
def isLowerHexDigit (c : Nat) : Bool :=
  (48 ≤ c && c ≤ 57) || (97 ≤ c && c ≤ 102)

/-- Value of one hex digit, as used by `parseInt(·, 16)` on valid digits. -/
def hexVal (c : Nat) : Nat :=
  if 48 ≤ c ∧ c ≤ 57 then c - 48
  else if 97 ≤ c ∧ c ≤ 102 then c - 87
  else if 65 ≤ c ∧ c ≤ 70 then c - 55
  else 0

/-- JavaScript `parseInt(s, 16)` on a string of valid hex digits. -/
def parseHex (l : List Nat) : Nat :=
  l.foldl (fun acc c => acc * 16 + hexVal c) 0

/-- JavaScript `String.fromCodePoint`: for `v ≤ 0x10FFFF` the UTF-16
code-unit sequence of the code point `v` (one unit below `0x10000`, a
surrogate pair above); for larger `v` it throws `RangeError` (`none`). -/
def fromCodePoint (v : Nat) : Option (List Nat) :=
  if v ≤ 1114111 then
    if v < 65536 then some [v]
    else some [(v - 65536) / 1024 + 55296, (v - 65536) % 1024 + 56320]
  else none

/-- The body of the per-character `switch` of `escapeString` (`src/index.ts`
lines 18–80): the output emitted for one code unit `code`. -/
def escapeChar (code : Nat) (style : EscapeStyle) : List Nat :=
  if code = 92 then [92, 92]
  else if code = 10 then [92, 110]
  else if code = 13 then [92, 114]
  else if code = 9 then [92, 116]
  else if code = 8 then [92, 98]
  else if code = 12 then [92, 102]
  else if code = 34 then [92, 34]
  else if code = 39 then
    if style = .python ∨ style = .c then [92, 39] else [39]
  else if code < 32 ∨ code > 126 then
    match style with
    | .json | .javascript =>
        if code < 65536 then [92, 117] ++ padStart 4 48 (toHexRaw code)
        else
          [92, 117] ++ padStart 4 48 (toHexRaw ((code - 65536) / 1024 + 55296)) ++
          [92, 117] ++ padStart 4 48 (toHexRaw ((code - 65536) % 1024 + 56320))
    | .python =>
        if code < 65536 then [92, 117] ++ padStart 4 48 (toHexRaw code)
        else [92, 85] ++ padStart 8 48 (toHexRaw code)
    | .c =>
        if code < 256 then [92, 120] ++ padStart 2 48 (toHexRaw code)
        else [92, 117] ++ padStart 4 48 (toHexRaw code)
  else [code]

/-- `escapeString` (`src/index.ts` lines 10–84): the loop concatenates the
per-character output left to right. -/
def escapeString : List Nat → EscapeStyle → List Nat
  | [], _ => []
  | c :: rest, style => escapeChar c style ++ escapeString rest style

/-- The `case "u"` / `case "U"` body of `unescapeString` (`src/index.ts`
lines 127–147), on the suffix `rest2` that follows the two characters
`\u` or `\U`.  The JS guard `i + 2 + hexLength <= str.length` translates
to `hexLength ≤ rest2.length` (the string consists of `i` consumed
characters, the 2-character introducer, and `rest2`), and
`str.substring(i + 2, i + 2 + hexLength)` is `rest2.take hexLength`.  On
success the parsed code point is emitted via `String.fromCodePoint`
(which throws above `0x10FFFF`, hence the `none` arm); on insufficient
length or a non-hex digit only the backslash is emitted and the cursor
advances by one, so scanning resumes at the `u`/`U` (`next`). -/
def stepHexU (hexLength next : Nat) (rest2 : List Nat) :
    Option (List Nat × List Nat) :=
  if hexLength ≤ rest2.length then
    if (rest2.take hexLength).all isHexDigit then
      match fromCodePoint (parseHex (rest2.take hexLength)) with
      | some out => some (out, rest2.drop hexLength)
      | none => none
    else some ([92], next :: rest2)
  else some ([92], next :: rest2)

/-- The `case "x"` body of `unescapeString` (`src/index.ts` lines
148–163), on the suffix `rest2` following `\x`.  The JS guard
`i + 3 < str.length` translates to `2 ≤ rest2.length`, and
`str.substring(i + 2, i + 4)` is `rest2.take 2`.  `String.fromCharCode`
applies ToUint16, i.e. reduction modulo `65536`. -/
def stepHexX (next : Nat) (rest2 : List Nat) : Option (List Nat × List Nat) :=
  if 2 ≤ rest2.length then
    if (rest2.take 2).all isHexDigit then
      some ([parseHex (rest2.take 2) % 65536], rest2.drop 2)
    else some ([92], next :: rest2)
  else some ([92], next :: rest2)

/-- The `switch (next)` of `unescapeString` (`src/index.ts` lines 94–168),
reached when the current character is `\` and at least one character
(`next`) follows; `rest2` is the suffix after `next`.  An unknown escape
letter emits the literal backslash and advances the cursor by one, so
`next` is rescanned. -/
def unescapeBackslash (next : Nat) (rest2 : List Nat) :
    Option (List Nat × List Nat) :=
  if next = 92 then some ([92], rest2)
  else if next = 110 then some ([10], rest2)
  else if next = 114 then some ([13], rest2)
  else if next = 116 then some ([9], rest2)
  else if next = 98 then some ([8], rest2)
  else if next = 102 then some ([12], rest2)
  else if next = 34 then some ([34], rest2)
  else if next = 39 then some ([39], rest2)
  else if next = 117 then stepHexU 4 next rest2
  else if next = 85 then stepHexU 8 next rest2
  else if next = 120 then stepHexX next rest2
  else some ([92], next :: rest2)

/-- One iteration of the `while` loop of `unescapeString` (`src/index.ts`
lines 90–173) on the not-yet-consumed suffix of the input: the output
emitted by the iteration and the suffix the cursor moves to, or `none` if
the iteration throws (`String.fromCodePoint` on a value above `0x10FFFF`).
A character other than `\`, or a `\` that is the last character, is copied
literally (`str[i] === "\\" && i + 1 < str.length` on line 91). -/
def unescapeStep : List Nat → Option (List Nat × List Nat)
  | [] => some ([], [])
  | [c] => some ([c], [])
  | c :: next :: rest2 =>
    if c = 92 then unescapeBackslash next rest2
    else some ([c], next :: rest2)

/-- The `while` loop of `unescapeString`, driven by a fuel argument.  Every
iteration consumes at least one input character (`unescapeStep_shrinks`
below), so fuel `s.length` always suffices; the out-of-fuel arm is
unreachable. -/
def unescapeCore : Nat → List Nat → Option (List Nat)
  | _, [] => some []
  | 0, _ :: _ => none
  | fuel + 1, c :: rest =>
    match unescapeStep (c :: rest) with
    | some (out, r) => Option.map (fun x => out ++ x) (unescapeCore fuel r)
    | none => none

/-- `unescapeString` (`src/index.ts` lines 86–176). -/
def unescapeString (s : List Nat) : Option (List Nat) :=
  unescapeCore s.length s

/-- The per-character test of `countEscapedCharacters` (`src/index.ts`
lines 183–194). -/
def isEscapable (c : Nat) : Bool :=
  c = 92 || c = 10 || c = 13 || c = 9 || c = 8 || c = 12 || c = 34 || c = 39 ||
  c < 32 || c > 126

/-- `countEscapedCharacters` (`src/index.ts` lines 178–199). -/
def countEscapedCharacters : List Nat → Nat
  | [] => 0
  | c :: rest => (if isEscapable c then 1 else 0) + countEscapedCharacters rest

/-- A JavaScript string holding the single Unicode code point `x` is its
UTF-16 encoding: one code unit below `0x10000`, a surrogate pair above
(the same formula the source uses at lines 57–58). -/
def utf16Units (x : Nat) : List Nat :=
  if x < 65536 then [x]
  else [(x - 65536) / 1024 + 55296, (x - 65536) % 1024 + 56320]

/-! ## Arithmetic facts about the hex-digit helpers -/

theorem hexVal_hexDigitChar (d : Nat) (h : d < 16) :
    hexVal (hexDigitChar d) = d := by
  unfold hexVal hexDigitChar
  by_cases h10 : d < 10
  · rw [if_pos h10, if_pos (by omega)]
    omega
  · rw [if_neg h10, if_neg (by omega), if_pos (by omega)]
    omega

theorem isLowerHexDigit_hexDigitChar (d : Nat) (h : d < 16) :
    isLowerHexDigit (hexDigitChar d) = true := by
  unfold isLowerHexDigit hexDigitChar
  by_cases h10 : d < 10
  · rw [if_pos h10]
    simp only [Bool.or_eq_true, Bool.and_eq_true, decide_eq_true_eq]
    omega
  · rw [if_neg h10]
    simp only [Bool.or_eq_true, Bool.and_eq_true, decide_eq_true_eq]
    omega

theorem isHexDigit_of_lower {c : Nat} (h : isLowerHexDigit c = true) :
    isHexDigit c = true := by
  unfold isLowerHexDigit at h
  unfold isHexDigit
  simp only [Bool.or_eq_true, Bool.and_eq_true, decide_eq_true_eq] at h ⊢
  omega

theorem ascii_of_isHexDigit {c : Nat} (h : isHexDigit c = true) :
    32 ≤ c ∧ c ≤ 126 := by
  unfold isHexDigit at h
  simp only [Bool.or_eq_true, Bool.and_eq_true, decide_eq_true_eq] at h
  omega

/-- Auxiliary accumulator law for `parseHex`. -/
theorem parseHex_foldl (l : List Nat) :
    ∀ acc, List.foldl (fun a c => a * 16 + hexVal c) acc l =
      acc * 16 ^ l.length + parseHex l := by
  induction l with
  | nil => intro acc; simp [parseHex]
  | cons c t ih =>
      intro acc
      have hc : parseHex (c :: t) = hexVal c * 16 ^ t.length + parseHex t := by
        show List.foldl (fun a c => a * 16 + hexVal c) (0 * 16 + hexVal c) t = _
        rw [ih (0 * 16 + hexVal c)]
        ring_nf
      simp only [List.foldl_cons, List.length_cons, hc]
      rw [ih (acc * 16 + hexVal c)]
      ring

theorem parseHex_append (a b : List Nat) :
    parseHex (a ++ b) = parseHex a * 16 ^ b.length + parseHex b := by
  unfold parseHex
  rw [List.foldl_append, parseHex_foldl]
  rfl

/-- Fuel-irrelevance of `toHexCore`. -/
theorem toHexCore_congr :
    ∀ f1 f2 n : Nat, n < f1 → n < f2 → toHexCore f1 n = toHexCore f2 n := by
  intro f1
  induction f1 with
  | zero => intro f2 n h1; omega
  | succ f ih =>
      intro f2 n h1 h2
      match f2, h2 with
      | g + 1, h2 =>
        show toHexCore (f + 1) n = toHexCore (g + 1) n
        unfold toHexCore
        by_cases hn : n = 0
        · rw [if_pos hn, if_pos hn]
        · rw [if_neg hn, if_neg hn]
          have hd : n / 16 < n := Nat.div_lt_self (by omega) (by omega)
          rw [ih g (n / 16) (by omega) (by omega)]

/-- One-step recurrence for `toHexCore` at its canonical fuel. -/
theorem toHexCore_rec (n : Nat) (hn : n ≠ 0) :
    toHexCore (n + 1) n =
      toHexCore (n / 16 + 1) (n / 16) ++ [hexDigitChar (n % 16)] := by
  show (if n = 0 then [] else toHexCore n (n / 16) ++ [hexDigitChar (n % 16)]) = _
  rw [if_neg hn]
  have hd : n / 16 < n := Nat.div_lt_self (by omega) (by omega)
  rw [toHexCore_congr n (n / 16 + 1) (n / 16) (by omega) (by omega)]

theorem parseHex_toHexCore (n : Nat) :
    parseHex (toHexCore (n + 1) n) = n := by
  induction n using Nat.strong_induction_on with
  | _ n ih =>
      by_cases hn : n = 0
      · subst hn
        rfl
      · rw [toHexCore_rec n hn, parseHex_append,
            ih (n / 16) (Nat.div_lt_self (by omega) (by omega))]
        have h16 : n % 16 < 16 := Nat.mod_lt _ (by omega)
        have : parseHex [hexDigitChar (n % 16)] = hexVal (hexDigitChar (n % 16)) := by
          unfold parseHex
          simp
        rw [this, hexVal_hexDigitChar _ h16]
        simp only [List.length_singleton, pow_one]
        omega

theorem length_toHexCore :
    ∀ w n : Nat, n < 16 ^ w → (toHexCore (n + 1) n).length ≤ w := by
  intro w
  induction w with
  | zero =>
      intro n h
      have : n = 0 := by simpa using Nat.lt_one_iff.mp h
      subst this
      simp [toHexCore]
  | succ w ih =>
      intro n h
      by_cases hn : n = 0
      · subst hn
        simp [toHexCore]
      · rw [toHexCore_rec n hn]
        have hd : n / 16 < 16 ^ w := by
          rw [Nat.div_lt_iff_lt_mul (by omega)]
          calc n < 16 ^ (w + 1) := h
            _ = 16 ^ w * 16 := by rw [pow_succ]
        have := ih (n / 16) hd
        simp only [List.length_append, List.length_singleton]
        omega

theorem mem_toHexCore_lower {n c : Nat} (h : c ∈ toHexCore (n + 1) n) :
    isLowerHexDigit c = true := by
  induction n using Nat.strong_induction_on with
  | _ n ih =>
      by_cases hn : n = 0
      · subst hn
        simp [toHexCore] at h
      · rw [toHexCore_rec n hn] at h
        rcases List.mem_append.mp h with h1 | h2
        · exact ih (n / 16) (Nat.div_lt_self (by omega) (by omega)) h1
        · have : c = hexDigitChar (n % 16) := by simpa using h2
          subst this
          exact isLowerHexDigit_hexDigitChar _ (Nat.mod_lt _ (by omega))

/-! ## Properties of the padded hex tokens emitted by `escapeString` -/

theorem mem_toHexRaw_lower {n c : Nat} (h : c ∈ toHexRaw n) :
    isLowerHexDigit c = true := by
  unfold toHexRaw at h
  by_cases hn : n = 0
  · rw [if_pos hn] at h
    have : c = 48 := by simpa using h
    subst this
    rfl
  · rw [if_neg hn] at h
    exact mem_toHexCore_lower h

theorem parseHex_toHexRaw (n : Nat) : parseHex (toHexRaw n) = n := by
  unfold toHexRaw
  by_cases hn : n = 0
  · rw [if_pos hn, hn]
    rfl
  · rw [if_neg hn]
    exact parseHex_toHexCore n

theorem length_toHexRaw {w n : Nat} (hw : 0 < w) (h : n < 16 ^ w) :
    (toHexRaw n).length ≤ w := by
  unfold toHexRaw
  by_cases hn : n = 0
  · rw [if_pos hn]
    simpa using hw
  · rw [if_neg hn]
    exact length_toHexCore w n h

theorem parseHex_replicate_zero (k : Nat) :
    parseHex (List.replicate k 48) = 0 := by
  induction k with
  | zero => rfl
  | succ k ih =>
      show parseHex (48 :: List.replicate k 48) = 0
      unfold parseHex at ih ⊢
      simpa using ih

/-- The padded token `padStart w 48 (toHexRaw n)` for `n < 16 ^ w` has
exactly `w` characters, all lowercase hex digits, and parses back to `n`. -/
theorem hexTok_spec (w n : Nat) (hw : 0 < w) (h : n < 16 ^ w) :
    (padStart w 48 (toHexRaw n)).length = w ∧
    (∀ c ∈ padStart w 48 (toHexRaw n), isLowerHexDigit c = true) ∧
    parseHex (padStart w 48 (toHexRaw n)) = n := by
  have hlen : (toHexRaw n).length ≤ w := length_toHexRaw hw h
  refine ⟨?_, ?_, ?_⟩
  · unfold padStart
    simp only [List.length_append, List.length_replicate]
    omega
  · intro c hc
    unfold padStart at hc
    rcases List.mem_append.mp hc with h1 | h2
    · have : c = 48 := (List.eq_of_mem_replicate h1)
      subst this
      rfl
    · exact mem_toHexRaw_lower h2
  · unfold padStart
    rw [parseHex_append, parseHex_replicate_zero, parseHex_toHexRaw]
    omega

/-! ## The loop invariant machinery for `unescapeString` -/

theorem stepHexU_shrinks {hl next : Nat} {rest2 out r : List Nat}
    (h : stepHexU hl next rest2 = some (out, r)) :
    r.length ≤ 1 + rest2.length := by
  unfold stepHexU at h
  repeat' split at h
  all_goals
    first
    | (simp only [Option.some.injEq, Prod.mk.injEq] at h
       rw [← h.2]
       simp only [List.length_cons, List.length_drop]
       omega)
    | simp at h

theorem stepHexX_shrinks {next : Nat} {rest2 out r : List Nat}
    (h : stepHexX next rest2 = some (out, r)) :
    r.length ≤ 1 + rest2.length := by
  unfold stepHexX at h
  repeat' split at h
  all_goals
    first
    | (simp only [Option.some.injEq, Prod.mk.injEq] at h
       rw [← h.2]
       simp only [List.length_cons, List.length_drop]
       omega)
    | simp at h

set_option maxHeartbeats 1600000 in
theorem unescapeBackslash_shrinks {next : Nat} {rest2 out r : List Nat}
    (h : unescapeBackslash next rest2 = some (out, r)) :
    r.length ≤ 1 + rest2.length := by
  unfold unescapeBackslash at h
  repeat' split at h
  all_goals
    first
    | (have hs2 : _ := stepHexU_shrinks h
       omega)
    | (have hs2 : _ := stepHexX_shrinks h
       omega)
    | (simp only [Option.some.injEq, Prod.mk.injEq] at h
       rw [← h.2]
       try simp only [List.length_cons]
       omega)
    | simp at h

/-- Every loop iteration consumes at least one input character. -/
theorem unescapeStep_shrinks {c : Nat} {rest out r : List Nat}
    (h : unescapeStep (c :: rest) = some (out, r)) :
    r.length < (c :: rest).length := by
  match rest with
  | [] =>
      simp only [unescapeStep, Option.some.injEq, Prod.mk.injEq] at h
      rw [← h.2]
      simp
  | next :: rest2 =>
      simp only [unescapeStep] at h
      split at h
      · have := unescapeBackslash_shrinks h
        simp only [List.length_cons]
        omega
      · simp only [Option.some.injEq, Prod.mk.injEq] at h
        rw [← h.2]
        simp only [List.length_cons]
        omega

/-- The driver ignores surplus fuel. -/
theorem unescapeCore_congr :
    ∀ f1 f2 s, s.length ≤ f1 → s.length ≤ f2 →
      unescapeCore f1 s = unescapeCore f2 s := by
  intro f1
  induction f1 with
  | zero =>
      intro f2 s h1 h2
      match s with
      | [] => match f2 with
        | 0 => rfl
        | g + 1 => rfl
      | c :: rest => simp at h1
  | succ f ih =>
      intro f2 s h1 h2
      match s with
      | [] => match f2 with
        | 0 => rfl
        | g + 1 => rfl
      | c :: rest =>
          match f2, h2 with
          | g + 1, h2 =>
            show unescapeCore (f + 1) (c :: rest) = unescapeCore (g + 1) (c :: rest)
            simp only [unescapeCore]
            match hs : unescapeStep (c :: rest) with
            | some (out, r) =>
                have hr := unescapeStep_shrinks hs
                simp only [List.length_cons] at h1 h2 hr
                exact congrArg (Option.map fun x => out ++ x) (ih g r (by omega) (by omega))
            | none => rfl

theorem unescape_nil : unescapeString [] = some [] := rfl

/-- Unfolding one loop iteration of `unescapeString`. -/
theorem unescape_step_eq {c : Nat} {rest out r : List Nat}
    (h : unescapeStep (c :: rest) = some (out, r)) :
    unescapeString (c :: rest) = Option.map (fun x => out ++ x) (unescapeString r) := by
  have hr := unescapeStep_shrinks h
  simp only [List.length_cons] at hr
  show unescapeCore (c :: rest).length (c :: rest) = _
  simp only [List.length_cons, unescapeCore, h]
  rw [unescapeCore_congr rest.length r.length r (by omega) (by omega)]
  rfl

/-- A loop iteration that throws makes `unescapeString` throw. -/
theorem unescape_fail_eq {c : Nat} {rest : List Nat}
    (h : unescapeStep (c :: rest) = none) :
    unescapeString (c :: rest) = none := by
  show unescapeCore (c :: rest).length (c :: rest) = none
  simp only [List.length_cons, unescapeCore, h]

/-! ## Decoding the tokens `escapeString` emits -/

theorem unescapeStep_plain (c : Nat) (rest : List Nat) (h : c ≠ 92) :
    unescapeStep (c :: rest) = some ([c], rest) := by
  match rest with
  | [] => rfl
  | next :: rest2 =>
      simp only [unescapeStep]
      rw [if_neg h]

theorem unescape_cons_ne (c : Nat) (rest : List Nat) (h : c ≠ 92) :
    unescapeString (c :: rest) = Option.map (List.cons c) (unescapeString rest) := by
  rw [unescape_step_eq (unescapeStep_plain c rest h)]
  rfl

theorem length_four_exists {l : List Nat} (h : l.length = 4) :
    ∃ a b c d, l = [a, b, c, d] := by
  rcases l with _ | ⟨a, _ | ⟨b, _ | ⟨c, _ | ⟨d, _ | ⟨e, t⟩⟩⟩⟩⟩ <;> simp_all

theorem length_two_exists {l : List Nat} (h : l.length = 2) :
    ∃ a b, l = [a, b] := by
  rcases l with _ | ⟨a, _ | ⟨b, _ | ⟨c, t⟩⟩⟩ <;> simp_all

/-- Stepping over a `\uXXXX` token produced for a value below `0x10000`. -/
theorem unescapeStep_u_tok (v : Nat) (hv : v < 65536) (rest : List Nat) :
    unescapeStep (92 :: 117 :: (padStart 4 48 (toHexRaw v) ++ rest)) =
      some ([v], rest) := by
  obtain ⟨hlen, hmem, hparse⟩ := hexTok_spec 4 v (by omega) (by omega)
  have hall : (padStart 4 48 (toHexRaw v)).all isHexDigit = true :=
    List.all_eq_true.mpr fun x hx => isHexDigit_of_lower (hmem x hx)
  simp only [unescapeStep]
  norm_num
  unfold unescapeBackslash
  norm_num
  unfold stepHexU
  rw [List.take_left' hlen, List.drop_left' hlen]
  rw [if_pos (by rw [List.length_append]; omega), if_pos hall, hparse]
  unfold fromCodePoint
  rw [if_pos (by omega), if_pos hv]

/-- Stepping over a `\xXX` token produced for a value below `256`. -/
theorem unescapeStep_x_tok (v : Nat) (hv : v < 256) (rest : List Nat) :
    unescapeStep (92 :: 120 :: (padStart 2 48 (toHexRaw v) ++ rest)) =
      some ([v], rest) := by
  obtain ⟨hlen, hmem, hparse⟩ := hexTok_spec 2 v (by omega) (by omega)
  have hall : (padStart 2 48 (toHexRaw v)).all isHexDigit = true :=
    List.all_eq_true.mpr fun x hx => isHexDigit_of_lower (hmem x hx)
  simp only [unescapeStep]
  norm_num
  unfold unescapeBackslash
  norm_num
  unfold stepHexX
  rw [List.take_left' hlen, List.drop_left' hlen]
  rw [if_pos (by rw [List.length_append]; omega), if_pos hall, hparse]
  rw [Nat.mod_eq_of_lt (by omega : v < 65536)]

theorem unescape_step_eq_of_ne {s out r : List Nat} (hs : s ≠ [])
    (h : unescapeStep s = some (out, r)) :
    unescapeString s = Option.map (fun x => out ++ x) (unescapeString r) := by
  match s, hs with
  | c :: rest, _ => exact unescape_step_eq h

/-- The first loop iteration of the unescaper consumes exactly the token
`escapeChar` emitted for a code unit `c` and emits `c` back. -/
theorem unescapeStep_escapeChar (c : Nat) (style : EscapeStyle) (rest : List Nat)
    (hc : c < 65536) :
    unescapeStep (escapeChar c style ++ rest) = some ([c], rest) := by
  by_cases h92 : c = 92
  · subst h92
    simp [escapeChar, unescapeStep, unescapeBackslash]
  by_cases h10 : c = 10
  · subst h10
    simp [escapeChar, unescapeStep, unescapeBackslash]
  by_cases h13 : c = 13
  · subst h13
    simp [escapeChar, unescapeStep, unescapeBackslash]
  by_cases h9 : c = 9
  · subst h9
    simp [escapeChar, unescapeStep, unescapeBackslash]
  by_cases h8 : c = 8
  · subst h8
    simp [escapeChar, unescapeStep, unescapeBackslash]
  by_cases h12 : c = 12
  · subst h12
    simp [escapeChar, unescapeStep, unescapeBackslash]
  by_cases h34 : c = 34
  · subst h34
    simp [escapeChar, unescapeStep, unescapeBackslash]
  by_cases h39 : c = 39
  · subst h39
    rcases style with _ | _ | _ | _
    · rw [show escapeChar 39 EscapeStyle.json = [39] by simp [escapeChar]]
      exact unescapeStep_plain 39 rest (by omega)
    · rw [show escapeChar 39 EscapeStyle.javascript = [39] by simp [escapeChar]]
      exact unescapeStep_plain 39 rest (by omega)
    · rw [show escapeChar 39 EscapeStyle.python = [92, 39] by simp [escapeChar]]
      simp [unescapeStep, unescapeBackslash]
    · rw [show escapeChar 39 EscapeStyle.c = [92, 39] by simp [escapeChar]]
      simp [unescapeStep, unescapeBackslash]
  by_cases hout : c < 32 ∨ c > 126
  · have hredux :
        escapeChar c style =
          match style with
          | .json | .javascript => [92, 117] ++ padStart 4 48 (toHexRaw c)
          | .python => [92, 117] ++ padStart 4 48 (toHexRaw c)
          | .c =>
              if c < 256 then [92, 120] ++ padStart 2 48 (toHexRaw c)
              else [92, 117] ++ padStart 4 48 (toHexRaw c) := by
      unfold escapeChar
      rw [if_neg h92, if_neg h10, if_neg h13, if_neg h9, if_neg h8, if_neg h12,
          if_neg h34, if_neg h39, if_pos hout]
      rcases style with _ | _ | _ | _ <;> simp [hc]
    rcases style with _ | _ | _ | _
    · rw [hredux]
      simpa [List.append_assoc] using unescapeStep_u_tok c hc rest
    · rw [hredux]
      simpa [List.append_assoc] using unescapeStep_u_tok c hc rest
    · rw [hredux]
      simpa [List.append_assoc] using unescapeStep_u_tok c hc rest
    · rw [hredux]
      by_cases h256 : c < 256
      · rw [if_pos h256]
        simpa [List.append_assoc] using unescapeStep_x_tok c h256 rest
      · rw [if_neg h256]
        simpa [List.append_assoc] using unescapeStep_u_tok c hc rest
  · have hplain : escapeChar c style = [c] := by
      unfold escapeChar
      rw [if_neg h92, if_neg h10, if_neg h13, if_neg h9, if_neg h8, if_neg h12,
          if_neg h34, if_neg h39, if_neg hout]
    rw [hplain]
    exact unescapeStep_plain c rest h92

/-- The round trip: unescaping the escaped form of any sequence of UTF-16
code units recovers the sequence, in every style. -/
theorem unescape_escape (s : List Nat) (style : EscapeStyle)
    (h : ∀ c ∈ s, c < 65536) :
    unescapeString (escapeString s style) = some s := by
  induction s with
  | nil => rfl
  | cons c t ih =>
      show unescapeString (escapeChar c style ++ escapeString t style) = _
      have hstep := unescapeStep_escapeChar c style (escapeString t style) (h c (by simp))
      have hne : escapeChar c style ++ escapeString t style ≠ [] := by
        intro hnil
        rw [hnil] at hstep
        simp [unescapeStep] at hstep
      rw [unescape_step_eq_of_ne hne hstep]
      rw [ih (fun x hx => h x (by simp [hx]))]
      rfl

/-- The code units of a code point are below `0x10000`. -/
theorem utf16Units_lt (x : Nat) (h1 : x ≤ 1114111) :
    ∀ c ∈ utf16Units x, c < 65536 := by
  unfold utf16Units
  by_cases hx : x < 65536
  · rw [if_pos hx]
    intro c hc
    simp at hc
    omega
  · rw [if_neg hx]
    intro c hc
    simp at hc
    rcases hc with h | h <;> omega

/-! ## Shape of `escapeChar` on the non-switch characters -/

/-- On a character handled by none of the `switch` cases, `escapeChar`
reduces to the `default:` branch for escapable code points. -/
theorem escapeChar_hex (c : Nat) (style : EscapeStyle)
    (h92 : c ≠ 92) (h10 : c ≠ 10) (h13 : c ≠ 13) (h9 : c ≠ 9) (h8 : c ≠ 8)
    (h12 : c ≠ 12) (h34 : c ≠ 34) (h39 : c ≠ 39) (hout : c < 32 ∨ c > 126) :
    escapeChar c style =
      match style with
      | .json | .javascript =>
          if c < 65536 then [92, 117] ++ padStart 4 48 (toHexRaw c)
          else
            [92, 117] ++ padStart 4 48 (toHexRaw ((c - 65536) / 1024 + 55296)) ++
            [92, 117] ++ padStart 4 48 (toHexRaw ((c - 65536) % 1024 + 56320))
      | .python =>
          if c < 65536 then [92, 117] ++ padStart 4 48 (toHexRaw c)
          else [92, 85] ++ padStart 8 48 (toHexRaw c)
      | .c =>
          if c < 256 then [92, 120] ++ padStart 2 48 (toHexRaw c)
          else [92, 117] ++ padStart 4 48 (toHexRaw c) := by
  unfold escapeChar
  rw [if_neg h92, if_neg h10, if_neg h13, if_neg h9, if_neg h8, if_neg h12,
      if_neg h34, if_neg h39, if_pos hout]

/-- A printable character handled by no `switch` case is emitted unchanged. -/
theorem escapeChar_plain (c : Nat) (style : EscapeStyle)
    (h92 : c ≠ 92) (h10 : c ≠ 10) (h13 : c ≠ 13) (h9 : c ≠ 9) (h8 : c ≠ 8)
    (h12 : c ≠ 12) (h34 : c ≠ 34) (h39 : c ≠ 39) (hin : ¬(c < 32 ∨ c > 126)) :
    escapeChar c style = [c] := by
  unfold escapeChar
  rw [if_neg h92, if_neg h10, if_neg h13, if_neg h9, if_neg h8, if_neg h12,
      if_neg h34, if_neg h39, if_neg hin]

/-- Every escaped (non-plain) output token starts with a backslash. -/
theorem escapeChar_hex_head (c : Nat) (style : EscapeStyle)
    (h92 : c ≠ 92) (h10 : c ≠ 10) (h13 : c ≠ 13) (h9 : c ≠ 9) (h8 : c ≠ 8)
    (h12 : c ≠ 12) (h34 : c ≠ 34) (h39 : c ≠ 39) (hout : c < 32 ∨ c > 126) :
    ∃ tl, escapeChar c style = 92 :: tl := by
  rw [escapeChar_hex c style h92 h10 h13 h9 h8 h12 h34 h39 hout]
  rcases style with _ | _ | _ | _ <;> simp only []
  · by_cases h1 : c < 65536
    · rw [if_pos h1]
      exact ⟨_, rfl⟩
    · rw [if_neg h1]
      exact ⟨_, rfl⟩
  · by_cases h1 : c < 65536
    · rw [if_pos h1]
      exact ⟨_, rfl⟩
    · rw [if_neg h1]
      exact ⟨_, rfl⟩
  · by_cases h1 : c < 65536
    · rw [if_pos h1]
      exact ⟨_, rfl⟩
    · rw [if_neg h1]
      exact ⟨_, rfl⟩
  · by_cases h1 : c < 256
    · rw [if_pos h1]
      exact ⟨_, rfl⟩
    · rw [if_neg h1]
      exact ⟨_, rfl⟩

/-! ## Per-character accounting for the counter -/

/-- Contribution of one character to `countEscapedCharacters`, compared
with whether `escapeChar` alters it and whether it is a single quote. -/
theorem count_contribution (c : Nat) (style : EscapeStyle) :
    (if isEscapable c then 1 else 0) =
      (if escapeChar c style ≠ [c] then 1 else 0) +
      (if style = EscapeStyle.json ∨ style = EscapeStyle.javascript then
        (if c = 39 then 1 else 0) else 0) := by
  by_cases h92 : c = 92
  · subst h92
    rcases style with _ | _ | _ | _ <;> decide
  by_cases h10 : c = 10
  · subst h10
    rcases style with _ | _ | _ | _ <;> decide
  by_cases h13 : c = 13
  · subst h13
    rcases style with _ | _ | _ | _ <;> decide
  by_cases h9 : c = 9
  · subst h9
    rcases style with _ | _ | _ | _ <;> decide
  by_cases h8 : c = 8
  · subst h8
    rcases style with _ | _ | _ | _ <;> decide
  by_cases h12 : c = 12
  · subst h12
    rcases style with _ | _ | _ | _ <;> decide
  by_cases h34 : c = 34
  · subst h34
    rcases style with _ | _ | _ | _ <;> decide
  by_cases h39 : c = 39
  · subst h39
    rcases style with _ | _ | _ | _ <;> decide
  by_cases hout : c < 32 ∨ c > 126
  · have hesc : isEscapable c = true := by
      simp only [isEscapable, Bool.or_eq_true, decide_eq_true_eq]
      omega
    have hne : escapeChar c style ≠ [c] := by
      obtain ⟨tl, htl⟩ := escapeChar_hex_head c style h92 h10 h13 h9 h8 h12 h34 h39 hout
      rw [htl]
      intro hcontra
      exact h92 (List.cons.inj hcontra).1.symm
    simp [hesc, hne, h39]
  · have hesc : isEscapable c = false := by
      simp only [isEscapable, Bool.or_eq_false_iff, decide_eq_false_iff_not]
      omega
    have hpl := escapeChar_plain c style h92 h10 h13 h9 h8 h12 h34 h39 hout
    simp [hesc, hpl, h39]

/-! ## All characters of escaped output are printable ASCII -/

theorem padTok_ascii {w n x : Nat} (hx : x ∈ padStart w 48 (toHexRaw n)) :
    32 ≤ x ∧ x ≤ 126 := by
  unfold padStart at hx
  rcases List.mem_append.mp hx with h | h
  · have : x = 48 := List.eq_of_mem_replicate h
    omega
  · exact ascii_of_isHexDigit (isHexDigit_of_lower (mem_toHexRaw_lower h))

theorem tok_ascii {a b w n x : Nat} (ha : 32 ≤ a ∧ a ≤ 126) (hb : 32 ≤ b ∧ b ≤ 126)
    (hx : x ∈ [a, b] ++ padStart w 48 (toHexRaw n)) : 32 ≤ x ∧ x ≤ 126 := by
  rcases List.mem_append.mp hx with h | h
  · simp at h
    rcases h with h | h
    · subst h
      exact ha
    · subst h
      exact hb
  · exact padTok_ascii h

theorem escapeChar_ascii (c : Nat) (style : EscapeStyle) :
    ∀ x ∈ escapeChar c style, 32 ≤ x ∧ x ≤ 126 := by
  by_cases h92 : c = 92
  · subst h92
    rcases style with _ | _ | _ | _ <;> decide
  by_cases h10 : c = 10
  · subst h10
    rcases style with _ | _ | _ | _ <;> decide
  by_cases h13 : c = 13
  · subst h13
    rcases style with _ | _ | _ | _ <;> decide
  by_cases h9 : c = 9
  · subst h9
    rcases style with _ | _ | _ | _ <;> decide
  by_cases h8 : c = 8
  · subst h8
    rcases style with _ | _ | _ | _ <;> decide
  by_cases h12 : c = 12
  · subst h12
    rcases style with _ | _ | _ | _ <;> decide
  by_cases h34 : c = 34
  · subst h34
    rcases style with _ | _ | _ | _ <;> decide
  by_cases h39 : c = 39
  · subst h39
    rcases style with _ | _ | _ | _ <;> decide
  by_cases hout : c < 32 ∨ c > 126
  · intro x hx
    rw [escapeChar_hex c style h92 h10 h13 h9 h8 h12 h34 h39 hout] at hx
    rcases style with _ | _ | _ | _ <;> simp only [] at hx
    · by_cases h1 : c < 65536
      · rw [if_pos h1] at hx
        exact tok_ascii (by omega) (by omega) hx
      · rw [if_neg h1] at hx
        simp only [List.append_assoc] at hx
        rcases List.mem_append.mp hx with h | h
        · simp at h
          omega
        · rcases List.mem_append.mp h with h2 | h2
          · exact padTok_ascii h2
          · exact tok_ascii (by omega) (by omega) h2
    · by_cases h1 : c < 65536
      · rw [if_pos h1] at hx
        exact tok_ascii (by omega) (by omega) hx
      · rw [if_neg h1] at hx
        simp only [List.append_assoc] at hx
        rcases List.mem_append.mp hx with h | h
        · simp at h
          omega
        · rcases List.mem_append.mp h with h2 | h2
          · exact padTok_ascii h2
          · exact tok_ascii (by omega) (by omega) h2
    · by_cases h1 : c < 65536
      · rw [if_pos h1] at hx
        exact tok_ascii (by omega) (by omega) hx
      · rw [if_neg h1] at hx
        exact tok_ascii (by omega) (by omega) hx
    · by_cases h1 : c < 256
      · rw [if_pos h1] at hx
        exact tok_ascii (by omega) (by omega) hx
      · rw [if_neg h1] at hx
        exact tok_ascii (by omega) (by omega) hx
  · rw [escapeChar_plain c style h92 h10 h13 h9 h8 h12 h34 h39 hout]
    intro x hx
    simp at hx
    omega

/-! ## The claims -/

/-- Claim C1 states that python-style Escape emits a single `\U` escape
with 8 zero-padded hex digits for every code point at or above `0x10000`,
with Escape of the grinning-face emoji yielding the ten characters of
`\U0001f600`.  The code iterates UTF-16 code units (`str[i]` with
`charCodeAt(0)`, always below `0x10000`), so its `\U` branch is
unreachable: the emoji — the code-unit sequence `[0xD83D, 0xDE00]` —
escapes to the twelve characters of `😀`, not to `\U0001f600`. -/
theorem C1_python_astral_eval :
    escapeString [55357, 56832] EscapeStyle.python =
      [92, 117, 100, 56, 51, 100, 92, 117, 100, 101, 48, 48] ∧
    escapeString [55357, 56832] EscapeStyle.python ≠
      [92, 85, 48, 48, 48, 49, 102, 54, 48, 48] := by
  decide

/-- Claim C2 states that no operation fails on any input, specifically
including `\U` followed by 8 valid hex digits denoting an arbitrarily
large value.  On `\U00110000` (value `0x110000 > 0x10FFFF`) the code
passes the parsed value to `String.fromCodePoint`, which throws a
`RangeError` — modelled here as `none`. -/
theorem C2_large_codepoint_throws :
    unescapeString [92, 85, 48, 48, 49, 49, 48, 48, 48, 48] = none := by
  decide

/-- Claim C3 asserts that some code point beyond the Basic Multilingual
Plane has a lossy json-style escape/unescape round trip.  No such code
point exists: Escape emits one `\uXXXX` per UTF-16 code unit (high then
low surrogate), and Unescape re-emits each decoded surrogate as a lone
code unit, whose concatenation is again exactly the UTF-16 encoding of
the original code point. -/
theorem C3_counterexample :
    ¬ ∃ x : Nat, 65536 ≤ x ∧ x ≤ 1114111 ∧
      unescapeString (escapeString (utf16Units x) EscapeStyle.json) ≠
        some (utf16Units x) := by
  rintro ⟨x, h1, h2, hne⟩
  exact hne (unescape_escape _ _ (utf16Units_lt x h2))

/-- Claim C3, amended: for every code point beyond the Basic Multilingual
Plane (`0x10000 ≤ x ≤ 0x10FFFF`), Unescape(Escape(x, json)) equals x (as
a JavaScript string, i.e. its two-code-unit UTF-16 encoding): the
json-style round trip is lossless beyond the BMP. -/
theorem C3_amended_json_astral_roundtrip (x : Nat) (h1 : 65536 ≤ x)
    (h2 : x ≤ 1114111) :
    unescapeString (escapeString (utf16Units x) EscapeStyle.json) =
      some (utf16Units x) :=
  unescape_escape _ _ (utf16Units_lt x h2)

theorem C3_amended_witness :
    unescapeString (escapeString (utf16Units 128512) EscapeStyle.json) =
      some (utf16Units 128512) :=
  C3_amended_json_astral_roundtrip 128512 (by decide) (by decide)

/-- Claim C4: for every input string (the sequence of UTF-16 code units
the implementation iterates over) and every style, unescaping the escaped
string recovers the input — the round trip is lossless on all inputs, not
only printable ASCII. -/
theorem C4_roundtrip_all (s : List Nat) (style : EscapeStyle)
    (h : ∀ c ∈ s, c < 65536) :
    unescapeString (escapeString s style) = some s :=
  unescape_escape s style h

theorem C4_roundtrip_all_witness :
    unescapeString
        (escapeString [104, 0, 55357, 56832, 233, 39, 34, 92, 9] EscapeStyle.json) =
      some [104, 0, 55357, 56832, 233, 39, 34, 92, 9] :=
  C4_roundtrip_all _ _ (by decide)

/-- Claim C5: for every string and style, CountEscapable equals the number
of characters Escape would alter, plus — exactly for styles json and
javascript — the number of single quotes (which the counter counts
unconditionally while Escape leaves them unchanged in those styles). -/
theorem C5_count_eq (s : List Nat) (style : EscapeStyle) :
    countEscapedCharacters s =
      s.countP (fun c => decide (escapeChar c style ≠ [c])) +
      (if style = EscapeStyle.json ∨ style = EscapeStyle.javascript then
        s.countP (fun c => decide (c = 39)) else 0) := by
  induction s with
  | nil =>
      simp [countEscapedCharacters]
  | cons c t ih =>
      simp only [countEscapedCharacters, List.countP_cons, decide_eq_true_eq]
      rw [ih]
      have hcc := count_contribution c style
      by_cases hS : style = EscapeStyle.json ∨ style = EscapeStyle.javascript
      · rw [if_pos hS] at hcc
        rw [if_pos hS, if_pos hS]
        omega
      · rw [if_neg hS] at hcc
        rw [if_neg hS, if_neg hS]
        omega

/-- Claim C6: strings of printable ASCII (32..126) without backslash,
double quote, or single quote round-trip through Escape/Unescape
unchanged in every style. -/
theorem C6_printable_roundtrip (s : List Nat) (style : EscapeStyle)
    (h : ∀ c ∈ s, 32 ≤ c ∧ c ≤ 126 ∧ c ≠ 92 ∧ c ≠ 34 ∧ c ≠ 39) :
    unescapeString (escapeString s style) = some s :=
  unescape_escape s style (fun c hc => by
    have := h c hc
    omega)

theorem C6_printable_roundtrip_witness :
    unescapeString (escapeString [72, 101, 108, 108, 111] EscapeStyle.c) =
      some [72, 101, 108, 108, 111] :=
  C6_printable_roundtrip _ _ (by decide)

/-- Claim C7: an unknown escape letter after a backslash, a `\u`, `\U` or
`\x` introducer with insufficient remaining length or non-hex content, and
a trailing lone backslash each make Unescape emit exactly the backslash
literally, the cursor advancing by one so the following characters are
re-scanned as plain text; in particular `\q` and `\xZZ` pass through
unchanged. -/
theorem C7_malformed_passthrough :
    (∀ next rest,
      next ∉ ([92, 110, 114, 116, 98, 102, 34, 39, 117, 85, 120] : List Nat) →
      unescapeString (92 :: next :: rest) =
        Option.map (List.cons 92) (unescapeString (next :: rest))) ∧
    (∀ rest : List Nat,
      rest.length < 4 ∨ (rest.take 4).all isHexDigit = false →
      unescapeString (92 :: 117 :: rest) =
        Option.map (List.cons 92) (unescapeString (117 :: rest))) ∧
    (∀ rest : List Nat,
      rest.length < 8 ∨ (rest.take 8).all isHexDigit = false →
      unescapeString (92 :: 85 :: rest) =
        Option.map (List.cons 92) (unescapeString (85 :: rest))) ∧
    (∀ rest : List Nat,
      rest.length < 2 ∨ (rest.take 2).all isHexDigit = false →
      unescapeString (92 :: 120 :: rest) =
        Option.map (List.cons 92) (unescapeString (120 :: rest))) ∧
    unescapeString [92] = some [92] ∧
    unescapeString [92, 113] = some [92, 113] ∧
    unescapeString [92, 120, 90, 90] = some [92, 120, 90, 90] := by
  refine ⟨?_, ?_, ?_, ?_, by decide, by decide, by decide⟩
  · intro next rest hmem
    simp only [List.mem_cons, List.not_mem_nil, or_false, not_or] at hmem
    obtain ⟨n92, n110, n114, n116, n98, n102, n34, n39, n117, n85, n120⟩ := hmem
    have hstep : unescapeStep (92 :: next :: rest) = some ([92], next :: rest) := by
      simp only [unescapeStep]
      norm_num
      unfold unescapeBackslash
      rw [if_neg n92, if_neg n110, if_neg n114, if_neg n116, if_neg n98,
          if_neg n102, if_neg n34, if_neg n39, if_neg n117, if_neg n85,
          if_neg n120]
    rw [unescape_step_eq hstep]
    rfl
  · intro rest hbad
    have hstep : unescapeStep (92 :: 117 :: rest) = some ([92], 117 :: rest) := by
      simp only [unescapeStep]
      norm_num
      unfold unescapeBackslash
      norm_num
      unfold stepHexU
      by_cases hl : 4 ≤ rest.length
      · rcases hbad with hlen | hhex
        · omega
        · rw [if_pos hl, if_neg (by simp [hhex])]
      · rw [if_neg hl]
    rw [unescape_step_eq hstep]
    rfl
  · intro rest hbad
    have hstep : unescapeStep (92 :: 85 :: rest) = some ([92], 85 :: rest) := by
      simp only [unescapeStep]
      norm_num
      unfold unescapeBackslash
      norm_num
      unfold stepHexU
      by_cases hl : 8 ≤ rest.length
      · rcases hbad with hlen | hhex
        · omega
        · rw [if_pos hl, if_neg (by simp [hhex])]
      · rw [if_neg hl]
    rw [unescape_step_eq hstep]
    rfl
  · intro rest hbad
    have hstep : unescapeStep (92 :: 120 :: rest) = some ([92], 120 :: rest) := by
      simp only [unescapeStep]
      norm_num
      unfold unescapeBackslash
      norm_num
      unfold stepHexX
      by_cases hl : 2 ≤ rest.length
      · rcases hbad with hlen | hhex
        · omega
        · rw [if_pos hl, if_neg (by simp [hhex])]
      · rw [if_neg hl]
    rw [unescape_step_eq hstep]
    rfl

theorem C7_malformed_passthrough_witness :
    unescapeString [92, 113, 65] =
      Option.map (List.cons 92) (unescapeString [113, 65]) :=
  C7_malformed_passthrough.1 113 [65] (by decide)

/-- Claim C8 asserts that c-style Escape emits `\x` plus 2 hex digits for
EVERY non-printable character below 256.  The five named control
characters are counterexamples: tab (9) is non-printable and below 256
but escapes to the two characters of `\t`, not to `\x09`. -/
theorem C8_counterexample :
    escapeString [9] EscapeStyle.c = [92, 116] ∧
    escapeString [9] EscapeStyle.c ≠ [92, 120, 48, 57] := by
  decide

/-- Claim C8, amended: for every non-printable code unit other than the
five named control characters (newline, CR, tab, backspace, form feed),
c-style Escape emits `\x` plus exactly 2 zero-padded lowercase hex digits
when the value is below 256 (so é, 233, yields the token of `\xe9`), and
`\u` plus exactly 4 zero-padded lowercase hex digits when the value is at
least 256 (and below `0x10000`, as every UTF-16 code unit is). -/
theorem C8_c_style_hex (c : Nat) (hout : c < 32 ∨ c > 126)
    (h10 : c ≠ 10) (h13 : c ≠ 13) (h9 : c ≠ 9) (h8 : c ≠ 8) (h12 : c ≠ 12) :
    (c < 256 →
      escapeChar c EscapeStyle.c = [92, 120] ++ padStart 2 48 (toHexRaw c) ∧
      (padStart 2 48 (toHexRaw c)).length = 2 ∧
      (∀ x ∈ padStart 2 48 (toHexRaw c), isLowerHexDigit x = true) ∧
      parseHex (padStart 2 48 (toHexRaw c)) = c) ∧
    (256 ≤ c → c < 65536 →
      escapeChar c EscapeStyle.c = [92, 117] ++ padStart 4 48 (toHexRaw c) ∧
      (padStart 4 48 (toHexRaw c)).length = 4 ∧
      (∀ x ∈ padStart 4 48 (toHexRaw c), isLowerHexDigit x = true) ∧
      parseHex (padStart 4 48 (toHexRaw c)) = c) := by
  have h92 : c ≠ 92 := by omega
  have h34 : c ≠ 34 := by omega
  have h39 : c ≠ 39 := by omega
  have hE := escapeChar_hex c EscapeStyle.c h92 h10 h13 h9 h8 h12 h34 h39 hout
  simp only [] at hE
  constructor
  · intro h256
    obtain ⟨l2, m2, p2⟩ := hexTok_spec 2 c (by omega) (by omega)
    rw [hE, if_pos h256]
    exact ⟨rfl, l2, m2, p2⟩
  · intro h256 h65536
    obtain ⟨l4, m4, p4⟩ := hexTok_spec 4 c (by omega) (by omega)
    rw [hE, if_neg (by omega)]
    exact ⟨rfl, l4, m4, p4⟩

theorem C8_c_style_hex_witness :
    escapeChar 233 EscapeStyle.c = [92, 120] ++ padStart 2 48 (toHexRaw 233) ∧
    escapeString [233] EscapeStyle.c = [92, 120, 101, 57] := by
  refine ⟨((C8_c_style_hex 233 (by decide) (by decide) (by decide) (by decide)
    (by decide) (by decide)).1 (by decide)).1, by decide⟩

/-- Claim C9: for every input string and every style, every character of
the escaped output is printable ASCII (scalar value in 32..126); the
output never contains a control character or a character above 126. -/
theorem C9_output_ascii (s : List Nat) (style : EscapeStyle) :
    (escapeString s style).all
      (fun x => decide (32 ≤ x) && decide (x ≤ 126)) = true := by
  induction s with
  | nil => rfl
  | cons c t ih =>
      show (escapeChar c style ++ escapeString t style).all _ = true
      simp only [List.all_append, Bool.and_eq_true]
      refine ⟨?_, ih⟩
      refine List.all_eq_true.mpr ?_
      intro x hx
      have := escapeChar_ascii c style x hx
      simp only [Bool.and_eq_true, decide_eq_true_eq]
      omega

/-- Claim C10: Escape leaves a single quote unchanged for styles json and
javascript and emits backslash-quote for styles python and c. -/
theorem C10_single_quote_styles :
    escapeString [39] EscapeStyle.json = [39] ∧
    escapeString [39] EscapeStyle.javascript = [39] ∧
    escapeString [39] EscapeStyle.python = [92, 39] ∧
    escapeString [39] EscapeStyle.c = [92, 39] := by
  decide
